import Mathlib

/-!
Verification of the job-orchestration backend in `src/server.js`
(voz-transcricao): the audio transcription pipeline (`/transcribe-chunked`),
the answer-sheet grading pipeline (`corrigirProvas` / `/start-verification`),
the activity generator (`/generate-activity`) and the Gemini backend fallback
(`selecionarModeloDisponivel`).

The embedding is shallow: external interactions (file reads, ffmpeg, provider
calls) are modelled as outcome data fed to the embedded control flow, which is
translated statement by statement from the source.
-/

namespace VozTranscricao

/-- One entry of the per-question detail list of a parsed grading response
(`{ "q": ..., "correct": ... }`). -/
structure Detail where
  q : Nat
  correct : Bool
deriving DecidableEq

/-- A per-unit grading record as pushed onto `results` by `corrigirProvas`
(`{ fileName, grade, details }`). -/
structure GradeRecord where
  fileName : String
  grade : String
  details : List Detail
deriving DecidableEq

/-- Outcome of one grading provider call, as the surrounding code can observe
it: `genError` = `model.generateContent` threw; `parseError` = `JSON.parse` on
the fence-stripped text threw, or produced a falsy value; `obj` = a parsed
object carrying the `invalidated` flag, a possible provider-precomputed grade
field, and the `details` property when present (`none` = property absent).
The grading code only ever reads `details`. -/
inductive AiResponse
  | genError
  | parseError
  | obj (invalidated : Bool) (provGrade : Option String) (details : Option (List Detail))
deriving DecidableEq

/-- Char-level implementation of JS `split(',')`: split at every comma,
keeping empty fields. -/
def splitCommaAux : List Char → List Char → List (List Char)
  | [], acc => [acc.reverse]
  | c :: cs, acc =>
    if c = ',' then acc.reverse :: splitCommaAux cs []
    else splitCommaAux cs (c :: acc)

def jsSplitComma (s : String) : List String :=
  (splitCommaAux s.toList []).map String.mk

/-- JS `String.prototype.trim` (whitespace restricted to the ASCII whitespace
the inputs here can contain). -/
def jsTrim (s : String) : String :=
  String.mk (((s.toList.dropWhile Char.isWhitespace).reverse.dropWhile
    Char.isWhitespace).reverse)

/-- JS `String.prototype.toUpperCase` (ASCII). -/
def jsToUpperCase (s : String) : String :=
  String.mk (s.toList.map Char.toUpper)

/-- `gabaritoString.split(',').map(s => s.trim().toUpperCase())`. -/
def gabaritoArray (gabaritoString : String) : List String :=
  (jsSplitComma gabaritoString).map (fun s => jsToUpperCase (jsTrim s))

/-- `gabaritoArray.map((_, i) => ({ "q": i + 1, "correct": false }))`. -/
def invalidDetails (g : List String) : List Detail :=
  (List.range g.length).map (fun i => { q := i + 1, correct := false })

/-- Handling of one image's provider interaction inside the unit loop of
`corrigirProvas`: the `try` pushes a record whose grade is
`correctCount/totalQuestoes` with `correctCount = details.filter(d => d.correct).length`;
every failure (`generateContent` threw, invalid JSON, no `details` property)
reaches the `catch`, which pushes the all-incorrect placeholder with grade
`0/totalQuestoes`. -/
def gradeOne (fileName : String) (totalQuestoes : Nat) (inv : List Detail) :
    AiResponse → GradeRecord
  | .genError =>
      { fileName := fileName, grade := "0/" ++ toString totalQuestoes, details := inv }
  | .parseError =>
      { fileName := fileName, grade := "0/" ++ toString totalQuestoes, details := inv }
  | .obj _ _ none =>
      { fileName := fileName, grade := "0/" ++ toString totalQuestoes, details := inv }
  | .obj _ _ (some details) =>
      { fileName := fileName,
        grade := toString (details.filter (fun d => d.correct)).length ++ "/" ++
          toString totalQuestoes,
        details := details }

/-- Outcome of handling one student-sheet file up to the provider call:
`fileMissing` = `fileToGenerativePart` returned `null` (ENOENT) and the loop
does `continue`; `readError` = reading the file threw a different error, which
escapes to the outer `catch` (whole-job failure, since the call sits outside
the inner `try`); `got r` = an image part was produced and the provider
interaction had outcome `r`. -/
inductive ImageStep
  | fileMissing
  | readError
  | got (r : AiResponse)
deriving DecidableEq

/-- The unit loop of `corrigirProvas` over `(originalname, outcome)` pairs,
building `results` in submission order; `none` models the abort to the outer
`catch` (in which case `job.results` is never assigned). -/
def corrigirLoop (totalQuestoes : Nat) (inv : List Detail) :
    List (String × ImageStep) → Option (List GradeRecord)
  | [] => some []
  | (_, .fileMissing) :: rest => corrigirLoop totalQuestoes inv rest
  | (_, .readError) :: _ => none
  | (name, .got r) :: rest =>
      (corrigirLoop totalQuestoes inv rest).map
        (fun l => gradeOne name totalQuestoes inv r :: l)

/-- The grading record a unit contributes to `results` when the loop is not
aborted (`fileMissing` units contribute nothing — they are skipped). -/
def imageEntry (totalQuestoes : Nat) (inv : List Detail) (u : String × ImageStep) :
    Option GradeRecord :=
  match u.2 with
  | .fileMissing => none
  | .readError => none
  | .got r => some (gradeOne u.1 totalQuestoes inv r)

/-! ### Audio transcription pipeline (`/transcribe-chunked`) -/

/-- Outcome of one audio chunk in the transcription unit loop: `fileMissing` =
`fileToGenerativePart` returned `null` (ENOENT) and the loop does `continue`;
`transcribed t` = the provider returned text `t`; `chunkError` = the chunk's
processing threw and the `catch` pushes the indexed placeholder. -/
inductive ChunkStep
  | fileMissing
  | transcribed (text : String)
  | chunkError
deriving DecidableEq

/-- The inline placeholder `[ERRO NA TRANSCRIÇÃO DO TRECHO i+1]`. -/
def trechoPlaceholder (k : Nat) : String :=
  "[ERRO NA TRANSCRIÇÃO DO TRECHO " ++ toString k ++ "]"

/-- The chunk loop of `/transcribe-chunked`, building `fullTranscription`
from 0-based chunk index `i` on. -/
def transcribeLoop : Nat → List ChunkStep → List String
  | _, [] => []
  | i, .fileMissing :: rest => transcribeLoop (i + 1) rest
  | i, .transcribed t :: rest => t :: transcribeLoop (i + 1) rest
  | i, .chunkError :: rest => trechoPlaceholder (i + 1) :: transcribeLoop (i + 1) rest

def fullTranscription (chunks : List ChunkStep) : List String :=
  transcribeLoop 0 chunks

/-- The entry a chunk at 0-based index `i` contributes to the aggregate. -/
def chunkEntry (i : Nat) : ChunkStep → Option String
  | .fileMissing => none
  | .transcribed t => some t
  | .chunkError => some (trechoPlaceholder (i + 1))

/-- One value of the `jobs[jobId]` record for the transcription pipeline;
`none` fields model absent object properties. -/
structure Job where
  status : String
  progress : Option ℚ := none
  transcription : Option String := none
  summary : Option String := none
  error : Option String := none
deriving DecidableEq

/-- The progress values written by the chunk loop
(`jobs[jobId].progress = ((i + 1) / chunkFiles.length) * 100`, written only
after a successful chunk). -/
def progressUpdates (n : Nat) : Nat → List ChunkStep → List ℚ
  | _, [] => []
  | i, .transcribed _ :: rest =>
      ((i : ℚ) + 1) / (n : ℚ) * 100 :: progressUpdates n (i + 1) rest
  | i, .fileMissing :: rest => progressUpdates n (i + 1) rest
  | i, .chunkError :: rest => progressUpdates n (i + 1) rest

/-- Outcome of the ffmpeg split stage. -/
inductive SplitOutcome
  | ffmpegError
  | chunks (files : List ChunkStep)
deriving DecidableEq

/-- The environment of one `/transcribe-chunked` job: the split outcome, the
outcome of model selection (`getModel` / `selecionarModeloDisponivel`), and
the summarization outcome (`some s` = summary text produced, `none` =
summarization threw). -/
structure AudioEnv where
  split : SplitOutcome
  modelOk : Bool
  summaryText : Option String
deriving DecidableEq

/-- Successive values of `jobs[jobId]` for one `/transcribe-chunked` job.
`fmt` is the question-formatting text transform
(`fullText.replace(/(pergunta)(\s+)(.*?)(\s+)(ponto)/gi, replacement)`),
passed abstractly: no claim depends on its internals, only on the value
flowing unchanged into the final record. -/
def audioJobTrace (fmt : String → String) (env : AudioEnv) : List Job :=
  let j0 : Job := { status := "splitting", progress := some 0 }
  match env.split with
  | .ffmpegError =>
      [j0, { status := "failed", error := some "Erro ao dividir o áudio." }]
  | .chunks files =>
      let j1 : Job := { j0 with status := "processing" }
      if env.modelOk = false then
        [j0, j1,
         { status := "failed", error := some "Não foi possível carregar o modelo de IA." }]
      else
        let ps := progressUpdates files.length 0 files
        let formattedText := fmt (String.intercalate " " (fullTranscription files))
        let summary :=
          match env.summaryText with
          | some s => s
          | none => "[Erro ao gerar resumo automático]"
        j0 :: j1 :: (ps.map (fun p => { j1 with progress := some p })
          ++ [{ status := "summarizing", progress := some (ps.getLastD 0) },
              { status := "completed", transcription := some formattedText,
                summary := some summary, progress := some 100 }])

/-- A deletion attempted against the artifact store. -/
inductive FsAction
  | deleteSource
  | deleteWorkspace
deriving DecidableEq

/-- Deletions attempted by the `/transcribe-chunked` pipeline on each path:
the ffmpeg-error handler unlinks the upload and removes the chunk directory;
the success path (reached whatever the summary outcome) removes the chunk
directory and unlinks the upload; the model-selection-failure path returns
without any deletion. -/
def audioCleanup (env : AudioEnv) : List FsAction :=
  match env.split with
  | .ffmpegError => [.deleteSource, .deleteWorkspace]
  | .chunks _ =>
      if env.modelOk = false then []
      else [.deleteWorkspace, .deleteSource]

/-! ### Grading pipeline job trace (`corrigirProvas`) -/

/-- JS `Math.round` on a nonnegative rational. -/
def jsRound (q : ℚ) : ℤ := ⌊q + 1 / 2⌋

/-- Progress values written by the grading unit loop
(`Math.round(((i + 1) / totalImagens) * 95)`, written after the
`fileMissing` `continue` check); a read error aborts the loop. -/
def gradeProgressUpdates (n : Nat) : Nat → List (String × ImageStep) → List ℤ
  | _, [] => []
  | i, (_, .fileMissing) :: rest => gradeProgressUpdates n (i + 1) rest
  | _, (_, .readError) :: _ => []
  | i, (_, .got _) :: rest =>
      jsRound (((i : ℚ) + 1) / (n : ℚ) * 95) :: gradeProgressUpdates n (i + 1) rest

/-- One value of the `jobs[jobId]` record for a grading job (the grading jobs
always carry a progress number; `results` stays `null` until completion). -/
structure GJob where
  status : String
  progress : ℤ
  results : Option (List GradeRecord) := none
  error : Option String := none
deriving DecidableEq

/-- Environment of one `/start-verification` job: whether
`genAI.getGenerativeModel` succeeded, and the ordered
`(originalname, outcome)` unit list. -/
structure GradingEnv where
  modelOk : Bool
  units : List (String × ImageStep)
deriving DecidableEq

/-- Successive values of `jobs[jobId]` for one `/start-verification` job:
created as `processing`/0 by the endpoint, mutated per unit by the loop, then
either completed (progress 100, results assigned) or failed by the outer
`catch` (progress keeps its last value, results never assigned). -/
def gradingTrace (gab : String) (env : GradingEnv) : List GJob :=
  let j0 : GJob := { status := "processing", progress := 0 }
  if env.modelOk = false then
    [j0,
     { j0 with
        status := "failed"
        error := some "Não foi possível carregar o modelo de IA." }]
  else
    let g := gabaritoArray gab
    let ps := gradeProgressUpdates env.units.length 0 env.units
    j0 :: (ps.map (fun p => { j0 with progress := p })
      ++ [match corrigirLoop g.length (invalidDetails g) env.units with
          | some rs => { status := "completed", progress := 100, results := some rs }
          | none => { status := "failed", progress := ps.getLastD 0,
                      error := some "Erro ao ler arquivo." }])

/-- A grading run: the job-record trace plus the `finally` cleanup, which
unlinks every path collected into `tempFilePaths` on every outcome. -/
structure GradingRun where
  trace : List GJob
  deleted : List String
deriving DecidableEq

/-- `corrigirProvas`: `tempFilePaths` is filled from every submitted file
before the `try`, and the `finally` block unlinks each of them whatever
happened, so `deleted` is the full unit list on every path. -/
def corrigirProvas (gab : String) (env : GradingEnv) : GradingRun :=
  { trace := gradingTrace gab env, deleted := env.units.map (fun u => u.1) }

/-! ### Submission endpoints (acknowledgement ordering) -/

/-- The externally relevant actions of a submission handler, in program
order. -/
inductive AckEvent
  | createJobEntry
  | send202
  | startPipeline
deriving DecidableEq

/-- `/transcribe-chunked` request: whether `req.file` is present. -/
structure TranscribeReq where
  hasFile : Bool
deriving DecidableEq

/-- The `/transcribe-chunked` handler: rejects with 400 when no file was
uploaded (`none`); otherwise `res.status(202).json({ jobId })` is executed
first, then `jobs[jobId] = { status: "splitting", progress: 0 }`, then the
ffmpeg pipeline is started. -/
def transcribeChunkedAck (r : TranscribeReq) : Option (List AckEvent) :=
  if r.hasFile then some [.send202, .createJobEntry, .startPipeline] else none

/-- `/start-verification` request fields used by its validations. -/
structure VerificationReq where
  hasStudentSheets : Bool
  numSheets : Nat
  gabarito : String
deriving DecidableEq

/-- The `/start-verification` handler: three 400 validations, then
`jobs[jobId] = {...}`, then `corrigirProvas(...)` is started, then
`res.status(202).json({ jobId })`. -/
def startVerificationAck (r : VerificationReq) : Option (List AckEvent) :=
  if r.hasStudentSheets = false then none
  else if jsTrim r.gabarito = "" then none
  else if r.numSheets = 0 then none
  else some [.createJobEntry, .startPipeline, .send202]

/-- `/start-dissertativa-correction` request fields used by its
validations. -/
structure DissertativaReq where
  hasStudentSheets : Bool
  numSheets : Nat
  gabaritoDissertativo : String
  criteriosAvaliacao : String
  notaMaxima : String
deriving DecidableEq

/-- The `/start-dissertativa-correction` handler: validations, then
`jobs[jobId] = {...}`, then `corrigirProvasDissertativas(...)`, then
`res.status(202).json({ jobId })`. -/
def startDissertativaAck (r : DissertativaReq) : Option (List AckEvent) :=
  if r.hasStudentSheets = false then none
  else if r.gabaritoDissertativo = "" ∨ r.criteriosAvaliacao = "" ∨ r.notaMaxima = ""
    then none
  else if r.numSheets = 0 then none
  else some [.createJobEntry, .startPipeline, .send202]

/-! ### Backend selection (`selecionarModeloDisponivel`) -/

/-- Outcome of probing one candidate model with the canary request
(`generateContent("Teste de disponibilidade do modelo.")`): `ok` = the call
returned with a truthy `result.response`; `noResponse` = it returned but
`result?.response` was falsy; `err c` = it threw with status code `c`. -/
inductive ProbeOutcome
  | ok
  | noResponse
  | err (code : Option Nat)
deriving DecidableEq

/-- The hard-coded ordered candidate list `modelosPreferidos`. -/
def modelosPreferidos : List String :=
  ["gemini-2.0-flash", "gemini-2.0-pro", "gemini-1.5-pro", "gemini-1.5-flash"]

/-- The candidate loop: a candidate whose canary probe returns a truthy
response is returned at once; on any other outcome (falsy response, or a
thrown error — with or without the 429/503 `continue`, control reaches the
next iteration either way) the next candidate is tried; after the loop one
single aggregated error is thrown. -/
def selecionarLoop (probe : String → ProbeOutcome) :
    List String → Except String String
  | [] => .error "Nenhum modelo Gemini disponível no momento."
  | m :: rest =>
      match probe m with
      | .ok => .ok m
      | _ => selecionarLoop probe rest

def selecionarModeloDisponivel (probe : String → ProbeOutcome) :
    Except String String :=
  selecionarLoop probe modelosPreferidos

/-- The model used by each provider invocation of the unit loop of
`/transcribe-chunked`: the model is selected once before the loop, the job
fails without any unit work if selection fails, and every chunk that reaches
`model.generateContent` is invoked against that one selected model. -/
def transcriptionInvocations (probe : String → ProbeOutcome)
    (chunks : List ChunkStep) : Option (List String) :=
  match selecionarModeloDisponivel probe with
  | .error _ => none
  | .ok m => some (chunks.filterMap (fun c =>
      match c with
      | .fileMissing => none
      | _ => some m))

/-! ### Activity generation (`/generate-activity`) -/

/-- The line terminators JS `.` does not match. -/
def isLineTerm (c : Char) : Bool :=
  c = '\n' || c = '\r' || c.toNat = 0x2028 || c.toNat = 0x2029

/-- The literal part of the pattern `/GABARITO:\[(.*?)\]/i`, lowercased. -/
def gabaritoPattern : List Char := "gabarito:[".toList

/-- Case-insensitive literal prefix match, returning the remainder. -/
def ciPrefixMatch : List Char → List Char → Option (List Char)
  | [], s => some s
  | _, [] => none
  | p :: ps, c :: cs => if c.toLower = p.toLower then ciPrefixMatch ps cs else none

/-- The lazy group `(.*?)\]`: capture up to the first `]`, failing on a line
terminator (which `.` cannot match) or the end of input. -/
def scanCapture : List Char → Option (List Char × List Char)
  | [] => none
  | c :: cs =>
      if c = ']' then some ([], cs)
      else if isLineTerm c then none
      else (scanCapture cs).map (fun p => (c :: p.1, p.2))

/-- One attempt of `/GABARITO:\[(.*?)\]/i` anchored at the current position:
the literal `GABARITO:[` case-insensitively, then the lazy capture. Returns
the capture and the input after the closing `]`. -/
def matchGabaritoAt (s : List Char) : Option (List Char × List Char) :=
  match ciPrefixMatch gabaritoPattern s with
  | none => none
  | some rest => scanCapture rest

/-- The leftmost match of `/GABARITO:\[(.*?)\]/i`: returns the characters
before the match, the capture, and the characters after the match. -/
def findGabarito : List Char → Option (List Char × List Char × List Char)
  | [] => none
  | c :: cs =>
      match matchGabaritoAt (c :: cs) with
      | some (cap, after) => some ([], cap, after)
      | none => (findGabarito cs).map (fun x => (c :: x.1, x.2.1, x.2.2))

/-- The gabarito extraction of the `/generate-activity` handler: when the
regex matches and the captured group is truthy (nonempty), the first match is
removed from the text (the same non-global regex is used for `replace`), the
result trimmed, and the capture split on commas, trimmed and uppercased;
otherwise `activityText` is the full provider text unchanged and `answers`
is `[]`. -/
def generateActivityExtract (fullResponseText : String) : String × List String :=
  match findGabarito fullResponseText.toList with
  | some (before, cap, after) =>
      if cap.isEmpty then (fullResponseText, [])
      else
        (jsTrim (String.mk (before ++ after)),
         (jsSplitComma (String.mk cap)).map (fun a => jsToUpperCase (jsTrim a)))
  | none => (fullResponseText, [])

end VozTranscricao

namespace VozTranscricao

/-- Helper: the placeholder detail list is all-incorrect and sized to the
answer key. -/
theorem invalidDetails_spec (g : List String) :
    (invalidDetails g).length = g.length ∧
      ∀ d ∈ invalidDetails g, d.correct = false := by
  constructor
  · simp [invalidDetails]
  · intro d hd
    simp only [invalidDetails, List.mem_map, List.mem_range] at hd
    obtain ⟨i, _, rfl⟩ := hd
    rfl

/-- Helper: no entry of the placeholder detail list passes the `correct`
filter. -/
theorem invalidDetails_filter (g : List String) :
    (invalidDetails g).filter (fun d => d.correct) = [] := by
  rw [List.filter_eq_nil_iff]
  intro d hd
  have := (invalidDetails_spec g).2 d hd
  simp [this]

/-- C9: the numeric grade of a unit is always computed locally as the count of
detail entries with `correct = true` over the answer-key length; a grade field
of the provider response is never read (the result is independent of it); for
answer key `B,A,D` and details `[{q:1,correct:true},{q:2,correct:false},{q:3,correct:true}]`
the computed grade string is `"2/3"`. -/
theorem C9_grade_locally_computed (name gab : String) (b : Bool)
    (pg : Option String) (ds : List Detail) :
    (gradeOne name (gabaritoArray gab).length (invalidDetails (gabaritoArray gab))
        (.obj b pg (some ds))).grade
      = toString ((ds.filter (fun d => d.correct)).length) ++ "/" ++
          toString (gabaritoArray gab).length
    ∧ (∀ pg1 pg2 : Option String,
        gradeOne name (gabaritoArray gab).length (invalidDetails (gabaritoArray gab))
            (.obj b pg1 (some ds))
          = gradeOne name (gabaritoArray gab).length (invalidDetails (gabaritoArray gab))
            (.obj b pg2 (some ds)))
    ∧ (gradeOne "sheet.png" (gabaritoArray "B,A,D").length
        (invalidDetails (gabaritoArray "B,A,D"))
        (.obj false none (some [⟨1, true⟩, ⟨2, false⟩, ⟨3, true⟩]))).grade = "2/3" := by
  refine ⟨rfl, fun pg1 pg2 => rfl, by decide⟩

/-- C6 counterexample: a unit flagged `invalidated = true` whose detail list
contains a correct answer is graded `"1/1"`, not `"0/1"` — the code never
inspects the `invalidated` flag. -/
theorem C6_counterexample :
    (gradeOne "prova1.png" (gabaritoArray "B").length (invalidDetails (gabaritoArray "B"))
        (.obj true none (some [⟨1, true⟩]))).grade = "1/1"
    ∧ (gradeOne "prova1.png" (gabaritoArray "B").length (invalidDetails (gabaritoArray "B"))
        (.obj true none (some [⟨1, true⟩]))).grade ≠ "0/1" := by
  decide

/-- C6 amended: the `invalidated` flag is never inspected — the grading record
is identical whatever its value — and an invalidated unit receives grade `0/N`
exactly insofar as the provider returns the all-incorrect placeholder detail
list its prompt instructs it to return for invalidated sheets. -/
theorem C6_amended (name : String) (g : List String) (b1 b2 : Bool)
    (pg : Option String) (dso : Option (List Detail)) :
    gradeOne name g.length (invalidDetails g) (.obj b1 pg dso)
      = gradeOne name g.length (invalidDetails g) (.obj b2 pg dso)
    ∧ (gradeOne name g.length (invalidDetails g)
        (.obj b1 pg (some (invalidDetails g)))).grade = "0/" ++ toString g.length := by
  constructor
  · cases dso <;> rfl
  · show toString ((invalidDetails g).filter (fun d => d.correct)).length ++ "/" ++
      toString g.length = "0/" ++ toString g.length
    rw [invalidDetails_filter]
    rfl

/-- C5 counterexample: for answer key `A,B,C` (length 3) a parsed response with
a detail list of length 2 is accepted as-is with grade `"2/3"` — it is not
treated as a processing error, and no placeholder sized to the key is
substituted. -/
theorem C5_counterexample :
    gradeOne "aluno1.png" (gabaritoArray "A,B,C").length
        (invalidDetails (gabaritoArray "A,B,C"))
        (.obj false none (some [⟨1, true⟩, ⟨2, true⟩]))
      = { fileName := "aluno1.png", grade := "2/3", details := [⟨1, true⟩, ⟨2, true⟩] }
    ∧ (gradeOne "aluno1.png" (gabaritoArray "A,B,C").length
        (invalidDetails (gabaritoArray "A,B,C"))
        (.obj false none (some [⟨1, true⟩, ⟨2, true⟩]))).details.length = 2
    ∧ (gabaritoArray "A,B,C").length = 3 := by
  decide

/-- C5 amended: a provider response that cannot be parsed, or that lacks the
`details` property, is treated as a per-unit processing error — the
all-incorrect placeholder sized to the answer-key length (grade `0/N`) is
substituted and the loop continues with the remaining units; however, a parsed
detail list is accepted as-is whatever its length (there is no length
validation against the answer key), with the grade denominator still `N`. -/
theorem C5_amended (name gab : String) (b : Bool) (pg : Option String)
    (ds : List Detail) (r : AiResponse) (rest : List (String × ImageStep)) :
    gradeOne name (gabaritoArray gab).length (invalidDetails (gabaritoArray gab)) .genError
      = { fileName := name, grade := "0/" ++ toString (gabaritoArray gab).length,
          details := invalidDetails (gabaritoArray gab) }
    ∧ gradeOne name (gabaritoArray gab).length (invalidDetails (gabaritoArray gab)) .parseError
      = { fileName := name, grade := "0/" ++ toString (gabaritoArray gab).length,
          details := invalidDetails (gabaritoArray gab) }
    ∧ gradeOne name (gabaritoArray gab).length (invalidDetails (gabaritoArray gab))
        (.obj b pg none)
      = { fileName := name, grade := "0/" ++ toString (gabaritoArray gab).length,
          details := invalidDetails (gabaritoArray gab) }
    ∧ (invalidDetails (gabaritoArray gab)).length = (gabaritoArray gab).length
    ∧ (∀ d ∈ invalidDetails (gabaritoArray gab), d.correct = false)
    ∧ (gradeOne name (gabaritoArray gab).length (invalidDetails (gabaritoArray gab))
        (.obj b pg (some ds))).details = ds
    ∧ corrigirLoop (gabaritoArray gab).length (invalidDetails (gabaritoArray gab))
        ((name, .got r) :: rest)
      = (corrigirLoop (gabaritoArray gab).length (invalidDetails (gabaritoArray gab)) rest).map
          (fun l => gradeOne name (gabaritoArray gab).length
            (invalidDetails (gabaritoArray gab)) r :: l) := by
  refine ⟨rfl, rfl, rfl, (invalidDetails_spec _).1, (invalidDetails_spec _).2, rfl, rfl⟩

/-- Helper: the chunk loop from index `i` produces exactly the entries of the
indexed chunks. -/
theorem transcribeLoop_eq_filterMap (i : Nat) (chunks : List ChunkStep) :
    transcribeLoop i chunks
      = (List.enumFrom i chunks).filterMap (fun p => chunkEntry p.1 p.2) := by
  induction chunks generalizing i with
  | nil => simp [transcribeLoop]
  | cons c rest ih =>
      cases c <;> simp [transcribeLoop, List.enumFrom, chunkEntry, ih]

/-- C1 counterexample: a single-unit job whose unit file cannot be read from
disk (ENOENT) produces an aggregate with zero entries — the unit is silently
dropped, in both the transcription loop and the grading loop. -/
theorem C1_counterexample :
    (fullTranscription [ChunkStep.fileMissing]).length
      ≠ ([ChunkStep.fileMissing] : List ChunkStep).length
    ∧ (corrigirLoop (gabaritoArray "A,B,C").length
        (invalidDetails (gabaritoArray "A,B,C"))
        [("prova1.png", ImageStep.fileMissing)]).map List.length ≠ some 1 := by
  decide

/-- C1 amended: the final aggregate contains, in original unit order, one
entry per unit whose file could be read — the unit's text when processing
succeeded and an explicit indexed placeholder when it failed — while a unit
whose file read fails with ENOENT is silently skipped and contributes no
entry (so only then does the count drop below N); the grading loop behaves
the same way over the units whose reads do not abort the job. -/
theorem C1_amended (chunks : List ChunkStep) (gab : String)
    (units : List (String × ImageStep)) :
    fullTranscription chunks = chunks.enum.filterMap (fun p => chunkEntry p.1 p.2)
    ∧ ((∀ u ∈ units, u.2 ≠ ImageStep.readError) →
        corrigirLoop (gabaritoArray gab).length (invalidDetails (gabaritoArray gab)) units
          = some (units.filterMap
              (imageEntry (gabaritoArray gab).length (invalidDetails (gabaritoArray gab))))) := by
  constructor
  · simpa [fullTranscription, List.enum] using transcribeLoop_eq_filterMap 0 chunks
  · intro h
    induction units with
    | nil => rfl
    | cons u rest ih =>
        obtain ⟨name, step⟩ := u
        have hrest := ih (fun v hv => h v (List.mem_cons_of_mem _ hv))
        cases step with
        | fileMissing => simpa [corrigirLoop, imageEntry] using hrest
        | readError => exact absurd rfl (h (name, ImageStep.readError) (List.mem_cons_self _ _))
        | got r => simp [corrigirLoop, imageEntry, hrest]

/-- C1 witness: the amended statement applied to a concrete grading unit list
(a provider failure followed by an unreadable file): the failed unit gets a
placeholder record, the unreadable one is dropped. -/
theorem C1_witness :
    corrigirLoop (gabaritoArray "A,B").length (invalidDetails (gabaritoArray "A,B"))
        [("a.png", ImageStep.got .parseError), ("b.png", ImageStep.fileMissing)]
      = some [{ fileName := "a.png", grade := "0/2",
                details := [⟨1, false⟩, ⟨2, false⟩] }] := by
  have h := (C1_amended [] "A,B"
    [("a.png", ImageStep.got .parseError), ("b.png", ImageStep.fileMissing)]).2 (by decide)
  rw [h]
  decide

/-- C2 counterexample: the accepted `/transcribe-chunked` submission executes
`res.status(202).json({ jobId })` strictly before `jobs[jobId] = {...}` — the
response carrying the job id is sent before the registry entry exists. -/
theorem C2_counterexample :
    transcribeChunkedAck ⟨true⟩
      = some [AckEvent.send202, AckEvent.createJobEntry, AckEvent.startPipeline]
    ∧ [AckEvent.send202, AckEvent.createJobEntry, AckEvent.startPipeline].indexOf
          AckEvent.send202
        < [AckEvent.send202, AckEvent.createJobEntry, AckEvent.startPipeline].indexOf
          AckEvent.createJobEntry := by
  decide

/-- C2 amended: for the grading submission endpoints (`/start-verification`
and `/start-dissertativa-correction`) the Job Registry entry is created
strictly before the 202 response is sent; for `/transcribe-chunked` the order
is reversed — the 202 response is sent first and the registry entry is
created immediately afterwards, within the same synchronous handler run. -/
theorem C2_amended (rt : TranscribeReq) (rv : VerificationReq)
    (rd : DissertativaReq) :
    (∀ evs, startVerificationAck rv = some evs →
      evs.indexOf AckEvent.createJobEntry < evs.indexOf AckEvent.send202)
    ∧ (∀ evs, startDissertativaAck rd = some evs →
      evs.indexOf AckEvent.createJobEntry < evs.indexOf AckEvent.send202)
    ∧ (∀ evs, transcribeChunkedAck rt = some evs →
      evs.indexOf AckEvent.send202 < evs.indexOf AckEvent.createJobEntry) := by
  refine ⟨?_, ?_, ?_⟩ <;> intro evs h
  · unfold startVerificationAck at h
    split_ifs at h
    simp_all
    subst h
    decide
  · unfold startDissertativaAck at h
    split_ifs at h
    simp_all
    subst h
    decide
  · unfold transcribeChunkedAck at h
    split_ifs at h
    simp_all
    subst h
    decide

/-- C2 witness: the amended ordering evaluated on concrete accepted
requests. -/
theorem C2_witness :
    startVerificationAck ⟨true, 1, "A,B"⟩
      = some [AckEvent.createJobEntry, AckEvent.startPipeline, AckEvent.send202]
    ∧ [AckEvent.createJobEntry, AckEvent.startPipeline, AckEvent.send202].indexOf
          AckEvent.createJobEntry
        < [AckEvent.createJobEntry, AckEvent.startPipeline, AckEvent.send202].indexOf
          AckEvent.send202 :=
  ⟨by decide,
   (C2_amended ⟨true⟩ ⟨true, 1, "A,B"⟩ ⟨true, 1, "g", "c", "10"⟩).1 _ (by decide)⟩

/-- Helper: division by a natural and multiplication by a nonnegative
constant is monotone (degenerate at `n = 0`, where ℚ division is 0). -/
theorem divMulMono (n : Nat) (a b K : ℚ) (h : a ≤ b) (hK : 0 ≤ K) :
    a / (n : ℚ) * K ≤ b / (n : ℚ) * K := by
  rcases Nat.eq_zero_or_pos n with h0 | h0
  · simp [h0]
  · have hn : (0 : ℚ) < n := by exact_mod_cast h0
    gcongr

/-- Helper: lower bound for the chunk-loop progress values. -/
theorem progressUpdates_lb (n i : Nat) (chunks : List ChunkStep) :
    ∀ p ∈ progressUpdates n i chunks, ((i : ℚ)) / (n : ℚ) * 100 ≤ p := by
  induction chunks generalizing i with
  | nil => simp [progressUpdates]
  | cons c rest ih =>
      have hstep : ((i : ℚ)) / (n : ℚ) * 100 ≤ (((i : ℚ)) + 1) / (n : ℚ) * 100 :=
        divMulMono n _ _ _ (by linarith) (by norm_num)
      have hcast : (((i + 1 : Nat) : ℚ)) = ((i : ℚ)) + 1 := by push_cast; ring
      cases c with
      | transcribed t =>
          intro p hp
          rcases List.mem_cons.mp hp with rfl | hm
          · exact hstep
          · refine le_trans hstep ?_
            have := ih (i + 1) p hm
            rwa [hcast] at this
      | fileMissing =>
          intro p hp
          refine le_trans hstep ?_
          have := ih (i + 1) p hp
          rwa [hcast] at this
      | chunkError =>
          intro p hp
          refine le_trans hstep ?_
          have := ih (i + 1) p hp
          rwa [hcast] at this

/-- Helper: the chunk-loop progress values are non-decreasing. -/
theorem progressUpdates_chain (n : Nat) (chunks : List ChunkStep) (i : Nat) :
    List.Chain' (· ≤ ·) (progressUpdates n i chunks) := by
  induction chunks generalizing i with
  | nil => simp [progressUpdates]
  | cons c rest ih =>
      cases c with
      | transcribed t =>
          rw [progressUpdates]
          refine List.chain'_cons'.mpr ⟨?_, ih (i + 1)⟩
          intro y hy
          have hmem := List.mem_of_mem_head? hy
          have := progressUpdates_lb n (i + 1) rest y hmem
          have hcast : (((i + 1 : Nat) : ℚ)) = ((i : ℚ)) + 1 := by push_cast; ring
          rwa [hcast] at this
      | fileMissing => simpa [progressUpdates] using ih (i + 1)
      | chunkError => simpa [progressUpdates] using ih (i + 1)

/-- Helper: the chunk-loop progress values never exceed 100. -/
theorem progressUpdates_ub (n : Nat) (chunks : List ChunkStep) (i : Nat)
    (h : i + chunks.length ≤ n) :
    ∀ p ∈ progressUpdates n i chunks, p ≤ 100 := by
  induction chunks generalizing i with
  | nil => simp [progressUpdates]
  | cons c rest ih =>
      have hlen : rest.length + 1 = (c :: rest).length := by simp
      cases c with
      | transcribed t =>
          intro p hp
          rcases List.mem_cons.mp hp with rfl | hm
          · have hn : 0 < n := by simp at h; omega
            have h1 : ((i : ℚ)) + 1 ≤ (n : ℚ) := by
              have : i + 1 ≤ n := by simp at h; omega
              exact_mod_cast this
            have h2 : (((i : ℚ)) + 1) / (n : ℚ) ≤ 1 := by
              rw [div_le_one (by exact_mod_cast hn)]
              exact h1
            nlinarith
          · exact ih (i + 1) (by simp at h; omega) p hm
      | fileMissing =>
          intro p hp
          exact ih (i + 1) (by simp at h; omega) p hp
      | chunkError =>
          intro p hp
          exact ih (i + 1) (by simp at h; omega) p hp

/-- Helper: the chunk-loop progress values are nonnegative. -/
theorem progressUpdates_nonneg (n : Nat) (chunks : List ChunkStep) (i : Nat) :
    ∀ p ∈ progressUpdates n i chunks, 0 ≤ p := by
  intro p hp
  have := progressUpdates_lb n i chunks p hp
  refine le_trans ?_ this
  positivity

/-- Helper: `Math.round` is monotone. -/
theorem jsRound_mono (a b : ℚ) (h : a ≤ b) : jsRound a ≤ jsRound b :=
  Int.floor_le_floor (by linarith)

/-- Helper: `Math.round` of a nonnegative value is nonnegative. -/
theorem jsRound_nonneg (q : ℚ) (h : 0 ≤ q) : 0 ≤ jsRound q := by
  unfold jsRound
  have : ((0 : ℤ) : ℚ) ≤ q + 1 / 2 := by push_cast; linarith
  exact Int.le_floor.mpr this

/-- Helper: `Math.round` of a value at most 95 is at most 95. -/
theorem jsRound_le_95 (q : ℚ) (h : q ≤ 95) : jsRound q ≤ 95 := by
  have h1 : jsRound q ≤ jsRound 95 := jsRound_mono _ _ h
  have h2 : jsRound 95 = 95 := by
    unfold jsRound
    norm_num
  omega

/-- Helper: lower bound for the grading-loop progress values. -/
theorem gradeProgressUpdates_lb (n i : Nat) (units : List (String × ImageStep)) :
    ∀ p ∈ gradeProgressUpdates n i units, jsRound (((i : ℚ)) / (n : ℚ) * 95) ≤ p := by
  induction units generalizing i with
  | nil => simp [gradeProgressUpdates]
  | cons u rest ih =>
      obtain ⟨name, step⟩ := u
      have hstep : jsRound (((i : ℚ)) / (n : ℚ) * 95)
          ≤ jsRound ((((i : ℚ)) + 1) / (n : ℚ) * 95) :=
        jsRound_mono _ _ (divMulMono n _ _ _ (by linarith) (by norm_num))
      have hcast : (((i + 1 : Nat) : ℚ)) = ((i : ℚ)) + 1 := by push_cast; ring
      cases step with
      | fileMissing =>
          intro p hp
          refine le_trans hstep ?_
          have := ih (i + 1) p hp
          rwa [hcast] at this
      | readError => simp [gradeProgressUpdates]
      | got r =>
          intro p hp
          rcases List.mem_cons.mp hp with rfl | hm
          · exact hstep
          · refine le_trans hstep ?_
            have := ih (i + 1) p hm
            rwa [hcast] at this

/-- Helper: the grading-loop progress values are non-decreasing. -/
theorem gradeProgressUpdates_chain (n : Nat) (units : List (String × ImageStep))
    (i : Nat) : List.Chain' (· ≤ ·) (gradeProgressUpdates n i units) := by
  induction units generalizing i with
  | nil => simp [gradeProgressUpdates]
  | cons u rest ih =>
      obtain ⟨name, step⟩ := u
      cases step with
      | fileMissing => simpa [gradeProgressUpdates] using ih (i + 1)
      | readError => simp [gradeProgressUpdates]
      | got r =>
          rw [gradeProgressUpdates]
          refine List.chain'_cons'.mpr ⟨?_, ih (i + 1)⟩
          intro y hy
          have hmem := List.mem_of_mem_head? hy
          have := gradeProgressUpdates_lb n (i + 1) rest y hmem
          have hcast : (((i + 1 : Nat) : ℚ)) = ((i : ℚ)) + 1 := by push_cast; ring
          rwa [hcast] at this

/-- Helper: the grading-loop progress values are capped at 95. -/
theorem gradeProgressUpdates_ub (n : Nat) (units : List (String × ImageStep))
    (i : Nat) (h : i + units.length ≤ n) :
    ∀ p ∈ gradeProgressUpdates n i units, p ≤ 95 := by
  induction units generalizing i with
  | nil => simp [gradeProgressUpdates]
  | cons u rest ih =>
      obtain ⟨name, step⟩ := u
      cases step with
      | fileMissing =>
          intro p hp
          exact ih (i + 1) (by simp at h; omega) p hp
      | readError => simp [gradeProgressUpdates]
      | got r =>
          intro p hp
          rcases List.mem_cons.mp hp with rfl | hm
          · apply jsRound_le_95
            have hn : 0 < n := by simp at h; omega
            have h1 : ((i : ℚ)) + 1 ≤ (n : ℚ) := by
              have : i + 1 ≤ n := by simp at h; omega
              exact_mod_cast this
            have h2 : (((i : ℚ)) + 1) / (n : ℚ) ≤ 1 := by
              rw [div_le_one (by exact_mod_cast hn)]
              exact h1
            nlinarith
          · exact ih (i + 1) (by simp at h; omega) p hm

/-- Helper: the grading-loop progress values are nonnegative. -/
theorem gradeProgressUpdates_nonneg (n : Nat) (units : List (String × ImageStep))
    (i : Nat) : ∀ p ∈ gradeProgressUpdates n i units, 0 ≤ p := by
  intro p hp
  refine le_trans ?_ (gradeProgressUpdates_lb n i units p hp)
  apply jsRound_nonneg
  positivity

/-- Helper: the last element of a two-step cons followed by an append of two
elements. -/
theorem getLast?_cons_cons_append (a b x y : Job) (l : List Job) :
    (a :: b :: (l ++ [x, y])).getLast? = some y := by
  rw [show a :: b :: (l ++ [x, y]) = (a :: b :: (l ++ [x])) ++ [y] by simp]
  exact List.getLast?_concat _

/-- Helper: extracting the progress field from the loop's record snapshots
recovers the written values. -/
theorem filterMap_progress_comp (l : List ℚ) :
    List.filterMap (Job.progress ∘ fun p =>
      Job.mk "processing" (some p) none none none) l = l := by
  induction l with
  | nil => rfl
  | cons a t ih => simp [ih, Function.comp]

/-- Helper: extracting the progress field from the grading loop's record
snapshots recovers the written values. -/
theorem map_progress_comp (l : List ℤ) :
    List.map (GJob.progress ∘ fun p => GJob.mk "processing" p none none) l = l := by
  induction l with
  | nil => rfl
  | cons a t ih => simp [ih, Function.comp]

/-- Helper: the progress values found in the audio job trace, in write
order. -/
theorem audioJobTrace_progress (fmt : String → String) (env : AudioEnv) :
    (audioJobTrace fmt env).filterMap Job.progress =
      match env.split with
      | .ffmpegError => [0]
      | .chunks files =>
          if env.modelOk = false then [0, 0]
          else
            (0 : ℚ) :: 0 :: (progressUpdates files.length 0 files
              ++ [(progressUpdates files.length 0 files).getLastD 0, 100]) := by
  obtain ⟨split, modelOk, summaryText⟩ := env
  cases split with
  | ffmpegError => simp [audioJobTrace]
  | chunks files =>
      by_cases h : modelOk = false
      · simp [audioJobTrace, h]
      · simp [audioJobTrace, h, List.filterMap_append, List.filterMap_map]
        exact filterMap_progress_comp _

/-- Helper: the progress values found in the grading job trace, in write
order. -/
theorem gradingTrace_progress (gab : String) (env : GradingEnv) :
    (gradingTrace gab env).map GJob.progress =
      if env.modelOk = false then [0, 0]
      else
        (0 : ℤ) :: (gradeProgressUpdates env.units.length 0 env.units
          ++ [match corrigirLoop (gabaritoArray gab).length
                (invalidDetails (gabaritoArray gab)) env.units with
              | some _ => (100 : ℤ)
              | none => (gradeProgressUpdates env.units.length 0 env.units).getLastD 0]) := by
  obtain ⟨modelOk, units⟩ := env
  by_cases h : modelOk = false
  · simp [gradingTrace, h]
  · cases hcl : corrigirLoop (gabaritoArray gab).length
      (invalidDetails (gabaritoArray gab)) units with
    | none =>
        simp [gradingTrace, h, hcl, List.map_append, List.map_map]
        exact map_progress_comp _
    | some rs =>
        simp [gradingTrace, h, hcl, List.map_append, List.map_map]
        exact map_progress_comp _

/-- Helper: a monotone run may be extended by a final value dominating the
last element. -/
theorem chain'_append_final {α : Type} [LinearOrder α] (ps : List α) (f : α)
    (hchain : List.Chain' (· ≤ ·) ps)
    (hlast : ∀ x ∈ ps.getLast?, x ≤ f) :
    List.Chain' (· ≤ ·) (ps ++ [f]) := by
  apply List.Chain'.append hchain (List.chain'_singleton f)
  intro x hx y hy
  simp only [List.head?_cons, Option.mem_def, Option.some.injEq] at hy
  subst hy
  exact hlast x hx

/-- Helper: `getLastD` of a list of nonnegative values is nonnegative, and
bounded when the list is. -/
theorem getLastD_bounds {α : Type} [LinearOrder α] (ps : List α) (z : α)
    (hnn : ∀ p ∈ ps, z ≤ p) :
    z ≤ ps.getLastD z := by
  cases hl : ps.getLast? with
  | none => simp [List.getLastD_eq_getLast?, hl]
  | some x =>
      have hx : x ∈ ps := List.mem_of_mem_getLast? (by rw [hl]; rfl)
      simp [List.getLastD_eq_getLast?, hl]
      exact hnn x hx

/-- Helper: `getLastD` respects an upper bound satisfied by the default and
all elements. -/
theorem getLastD_ub {α : Type} [LinearOrder α] (ps : List α) (z b : α)
    (hzb : z ≤ b) (hub : ∀ p ∈ ps, p ≤ b) :
    ps.getLastD z ≤ b := by
  cases hl : ps.getLast? with
  | none => simp [List.getLastD_eq_getLast?, hl, hzb]
  | some x =>
      have hx : x ∈ ps := List.mem_of_mem_getLast? (by rw [hl]; rfl)
      simp [List.getLastD_eq_getLast?, hl]
      exact hub x hx

/-- C3 counterexample: an audio job with a single successfully transcribed
chunk reaches `progress = 100` while its status is still `processing` (and
then `summarizing`) — `progress = 100` does not imply `completed`. -/
theorem C3_counterexample :
    ∃ j ∈ audioJobTrace id ⟨.chunks [.transcribed "texto"], true, some "resumo"⟩,
      j.progress = some 100 ∧ j.status = "processing"
        ∧ j.status ≠ "completed" := by
  refine ⟨{ status := "processing", progress := some 100 }, ?_, rfl, rfl, by decide⟩
  simp [audioJobTrace, progressUpdates]

/-- C3 amended: every progress value written over a job's lifetime is
non-decreasing, and `completed` implies `progress = 100`; but the converse
direction of the claim's iff holds only for the grading pipelines, whose
interim per-unit progress is capped at 95 — the audio pipeline reaches
progress 100 already when its last chunk finishes, while the status is still
`processing` and then `summarizing`. -/
theorem C3_amended (fmt : String → String) (env : AudioEnv) (gab : String)
    (genv : GradingEnv) :
    List.Chain' (· ≤ ·) ((audioJobTrace fmt env).filterMap Job.progress)
    ∧ (∀ j ∈ audioJobTrace fmt env, j.status = "completed" → j.progress = some 100)
    ∧ List.Chain' (· ≤ ·) ((gradingTrace gab genv).map GJob.progress)
    ∧ (∀ j ∈ gradingTrace gab genv, j.status = "completed" → j.progress = 100)
    ∧ (∀ p ∈ gradeProgressUpdates genv.units.length 0 genv.units, p ≤ 95) := by
  refine ⟨?_, ?_, ?_, ?_, ?_⟩
  · -- audio progress chain
    obtain ⟨split, modelOk, summaryText⟩ := env
    cases split with
    | ffmpegError => simp [audioJobTrace_progress]
    | chunks files =>
        rw [audioJobTrace_progress]
        dsimp only
        by_cases h : modelOk = false
        · simp [h]
        · rw [if_neg h]
          set ps := progressUpdates files.length 0 files with hps
          have hchain : List.Chain' (· ≤ ·) ps := progressUpdates_chain _ _ _
          have hnn : ∀ p ∈ ps, (0 : ℚ) ≤ p := progressUpdates_nonneg _ _ _
          have hub : ∀ p ∈ ps, p ≤ 100 := progressUpdates_ub _ _ 0 (by simp)
          have hlnn : (0 : ℚ) ≤ ps.getLastD 0 := getLastD_bounds ps 0 hnn
          have hlub : ps.getLastD 0 ≤ 100 := getLastD_ub ps 0 100 (by norm_num) hub
          have hall : ∀ y ∈ ps ++ [ps.getLastD 0, 100], (0 : ℚ) ≤ y := by
            intro y hy
            rcases List.mem_append.mp hy with hy | hy
            · exact hnn y hy
            · rcases List.mem_cons.mp hy with rfl | hy
              · exact hlnn
              · rcases List.mem_cons.mp hy with rfl | hy
                · norm_num
                · simp at hy
          refine List.chain'_cons'.mpr ⟨?_, List.chain'_cons'.mpr ⟨?_, ?_⟩⟩
          · intro y hy
            simp only [List.head?_cons, Option.mem_def, Option.some.injEq] at hy
            subst hy
            exact le_rfl
          · intro y hy
            exact hall y (List.mem_of_mem_head? hy)
          · have h1 : List.Chain' (· ≤ ·) (ps ++ [ps.getLastD 0]) := by
              refine chain'_append_final ps _ hchain ?_
              intro x hx
              rw [Option.mem_def] at hx
              simp [List.getLastD_eq_getLast?, hx]
            have h2 : List.Chain' (· ≤ ·) ((ps ++ [ps.getLastD 0]) ++ [100]) := by
              refine chain'_append_final _ _ h1 ?_
              intro x hx
              rw [List.getLast?_concat] at hx
              simp only [Option.mem_def, Option.some.injEq] at hx
              subst hx
              exact hlub
            simpa using h2
  · -- audio: completed implies progress 100
    intro j hj hstat
    obtain ⟨split, modelOk, summaryText⟩ := env
    cases split with
    | ffmpegError =>
        simp [audioJobTrace] at hj
        rcases hj with rfl | rfl <;> simp at hstat
    | chunks files =>
        by_cases h : modelOk = false
        · simp [audioJobTrace, h] at hj
          rcases hj with rfl | rfl | rfl <;> simp at hstat
        · simp [audioJobTrace, h] at hj
          rcases hj with rfl | rfl | ⟨p, hp, rfl⟩ | rfl | rfl <;>
            first
              | rfl
              | simp at hstat
  · -- grading progress chain
    obtain ⟨modelOk, units⟩ := genv
    rw [gradingTrace_progress]
    dsimp only
    by_cases h : modelOk = false
    · simp [h]
    · rw [if_neg h]
      set ps := gradeProgressUpdates units.length 0 units with hps
      have hchain : List.Chain' (· ≤ ·) ps := gradeProgressUpdates_chain _ _ _
      have hnn : ∀ p ∈ ps, (0 : ℤ) ≤ p := gradeProgressUpdates_nonneg _ _ _
      have hub : ∀ p ∈ ps, p ≤ 95 := gradeProgressUpdates_ub _ _ 0 (by simp)
      set f : ℤ := (match corrigirLoop (gabaritoArray gab).length
        (invalidDetails (gabaritoArray gab)) units with
        | some _ => (100 : ℤ)
        | none => ps.getLastD 0) with hf
      have hfinal : ∀ x ∈ ps.getLast?, x ≤ f := by
        intro x hx
        have hxm : x ∈ ps := List.mem_of_mem_getLast? hx
        cases hcl : corrigirLoop (gabaritoArray gab).length
          (invalidDetails (gabaritoArray gab)) units with
        | some rs =>
            have : x ≤ 95 := hub x hxm
            simp only [hf, hcl]
            omega
        | none =>
            rw [Option.mem_def] at hx
            simp only [hf, hcl]
            simp [List.getLastD_eq_getLast?, hx]
      refine List.chain'_cons'.mpr ⟨?_, chain'_append_final ps f hchain hfinal⟩
      intro y hy
      have hym := List.mem_of_mem_head? hy
      rcases List.mem_append.mp hym with hym | hym
      · exact hnn y hym
      · rcases List.mem_cons.mp hym with rfl | hym
        · cases hcl : corrigirLoop (gabaritoArray gab).length
            (invalidDetails (gabaritoArray gab)) units with
          | some rs => simp only [hf, hcl]; omega
          | none =>
              simp only [hf, hcl]
              exact getLastD_bounds ps 0 hnn
        · simp at hym
  · -- grading: completed implies progress 100
    intro j hj hstat
    obtain ⟨modelOk, units⟩ := genv
    by_cases h : modelOk = false
    · simp [gradingTrace, h] at hj
      rcases hj with rfl | rfl <;> simp at hstat
    · cases hcl : corrigirLoop (gabaritoArray gab).length
        (invalidDetails (gabaritoArray gab)) units with
      | some rs =>
          simp [gradingTrace, h, hcl] at hj
          rcases hj with rfl | ⟨p, hp, rfl⟩ | rfl <;>
            first
              | rfl
              | simp at hstat
      | none =>
          simp [gradingTrace, h, hcl] at hj
          rcases hj with rfl | ⟨p, hp, rfl⟩ | rfl <;>
            first
              | rfl
              | simp at hstat
  · exact gradeProgressUpdates_ub _ _ 0 (by simp)

/-- C3 witness: a concrete grading-loop progress value produced by the
amended theorem's cap, evaluated at a one-unit job. -/
theorem C3_witness :
    jsRound (((0 : ℚ) + 1) / ((1 : Nat) : ℚ) * 95) ≤ 95 := by
  have h := (C3_amended id ⟨.chunks [], true, none⟩ "A"
    ⟨true, [("a.png", ImageStep.got .genError)]⟩).2.2.2.2
  exact h _ (by simp [gradeProgressUpdates])

/-- C4 counterexample: a job whose backend selection fails reaches the
terminal state `failed` but no deletion at all is attempted — the uploaded
source artifact and the chunk workspace are leaked. -/
theorem C4_counterexample :
    ((audioJobTrace id ⟨.chunks [], false, none⟩).getLast?).map Job.status
      = some "failed"
    ∧ audioCleanup ⟨.chunks [], false, none⟩ = [] := by
  exact ⟨rfl, rfl⟩

/-- C4 amended: the audio pipeline deletes both the source artifact and the
workspace on the split-failure path and on every path that survives model
selection (success or summary failure alike), but performs no cleanup at all
on the model-selection-failure path; the grading pipeline's `finally` block
deletes every unit temp file on every outcome. -/
theorem C4_amended (fmt : String → String) (env : AudioEnv) (gab : String)
    (genv : GradingEnv) :
    (env.split = SplitOutcome.ffmpegError ∨ env.modelOk = true →
      FsAction.deleteSource ∈ audioCleanup env
        ∧ FsAction.deleteWorkspace ∈ audioCleanup env)
    ∧ ((∃ files, env.split = SplitOutcome.chunks files) ∧ env.modelOk = false →
      audioCleanup env = [])
    ∧ (corrigirProvas gab genv).deleted = genv.units.map (fun u => u.1) := by
  refine ⟨?_, ?_, rfl⟩
  · intro h
    cases henv : env.split with
    | ffmpegError => simp [audioCleanup, henv]
    | chunks files =>
        rcases h with h | h
        · rw [henv] at h
          exact absurd h (by simp)
        · simp [audioCleanup, henv, h]
  · rintro ⟨⟨files, hs⟩, hm⟩
    simp [audioCleanup, hs, hm]

/-- C4 witness: the amended cleanup guarantee evaluated on the
split-failure path. -/
theorem C4_witness :
    FsAction.deleteSource ∈ audioCleanup ⟨SplitOutcome.ffmpegError, true, none⟩
    ∧ FsAction.deleteWorkspace ∈ audioCleanup ⟨SplitOutcome.ffmpegError, true, none⟩ :=
  (C4_amended id ⟨SplitOutcome.ffmpegError, true, none⟩ "A" ⟨true, []⟩).1 (Or.inl rfl)

/-- C7: when every chunk has been processed and the summarization stage then
fails, the job still terminates `completed` with `progress = 100`, the
transcription (the formatted aggregate) is delivered exactly as on the
success path, and only the summary field carries the explicit placeholder
`[Erro ao gerar resumo automático]`. -/
theorem C7_secondary_failure_completes (fmt : String → String)
    (files : List ChunkStep) (s : String) :
    (audioJobTrace fmt ⟨.chunks files, true, none⟩).getLast?
      = some { status := "completed", progress := some 100,
               transcription := some (fmt (String.intercalate " " (fullTranscription files))),
               summary := some "[Erro ao gerar resumo automático]" }
    ∧ ((audioJobTrace fmt ⟨.chunks files, true, none⟩).getLast?.map Job.transcription
        = (audioJobTrace fmt ⟨.chunks files, true, some s⟩).getLast?.map Job.transcription) := by
  constructor
  · exact getLast?_cons_cons_append _ _ _ _ _
  · have e1 : (audioJobTrace fmt ⟨.chunks files, true, none⟩).getLast?
        = some { status := "completed", progress := some 100,
                 transcription := some (fmt (String.intercalate " " (fullTranscription files))),
                 summary := some "[Erro ao gerar resumo automático]" } :=
      getLast?_cons_cons_append _ _ _ _ _
    have e2 : (audioJobTrace fmt ⟨.chunks files, true, some s⟩).getLast?
        = some { status := "completed", progress := some 100,
                 transcription := some (fmt (String.intercalate " " (fullTranscription files))),
                 summary := some s } :=
      getLast?_cons_cons_append _ _ _ _ _
    rw [e1, e2]
    rfl

/-- Helper: the candidate loop returns the first candidate whose probe
responds successfully, and otherwise the single aggregated error. -/
theorem selecionarLoop_eq (probe : String → ProbeOutcome) (ms : List String) :
    selecionarLoop probe ms =
      match ms.find? (fun m => decide (probe m = ProbeOutcome.ok)) with
      | some m => .ok m
      | none => .error "Nenhum modelo Gemini disponível no momento." := by
  induction ms with
  | nil => rfl
  | cons m rest ih =>
      cases hp : probe m with
      | ok => simp [selecionarLoop, List.find?_cons, hp]
      | noResponse => simp [selecionarLoop, List.find?_cons, hp, ih]
      | err c => simp [selecionarLoop, List.find?_cons, hp, ih]

/-- C8: backend selection probes the hard-coded ordered candidate list in
order and returns the first candidate whose canary probe responds
successfully; it fails — with the one aggregated error message — exactly when
every candidate's probe fails; and when selection succeeds, the job's unit
loop invokes every non-skipped unit against that one selected model. -/
theorem C8_backend_selection (probe : String → ProbeOutcome)
    (chunks : List ChunkStep) :
    (selecionarModeloDisponivel probe =
      match modelosPreferidos.find? (fun m => decide (probe m = ProbeOutcome.ok)) with
      | some m => .ok m
      | none => .error "Nenhum modelo Gemini disponível no momento.")
    ∧ (selecionarModeloDisponivel probe
        = .error "Nenhum modelo Gemini disponível no momento."
      ↔ ∀ m ∈ modelosPreferidos, probe m ≠ ProbeOutcome.ok)
    ∧ (∀ m, selecionarModeloDisponivel probe = .ok m →
        transcriptionInvocations probe chunks
          = some (chunks.filterMap (fun c => match c with
              | ChunkStep.fileMissing => none
              | _ => some m))
        ∧ ∀ x ∈ chunks.filterMap (fun c => match c with
              | ChunkStep.fileMissing => none
              | _ => some m), x = m) := by
  have hchar := selecionarLoop_eq probe modelosPreferidos
  refine ⟨hchar, ?_, ?_⟩
  · rw [show selecionarModeloDisponivel probe = _ from hchar]
    cases hf : modelosPreferidos.find? (fun m => decide (probe m = ProbeOutcome.ok)) with
    | some m =>
        simp only
        constructor
        · intro hcontra
          exact absurd hcontra (by simp)
        · intro hall
          have hp := List.find?_some hf
          have hm := List.mem_of_find?_eq_some hf
          exact absurd (of_decide_eq_true hp) (hall m hm)
    | none =>
        simp only
        constructor
        · intro _ m hm
          have := List.find?_eq_none.mp hf m hm
          simpa using this
        · intro _
          trivial
  · intro m hsel
    constructor
    · simp only [transcriptionInvocations, hsel]
    · intro x hx
      rcases List.mem_filterMap.mp hx with ⟨c, _, hc⟩
      cases c <;> simp_all

/-- C8 witness: the theorem evaluated on the spec's example — the first two
candidates fail their canary probe, the third succeeds and is used for every
unit; and with an always-failing probe, selection yields the single
aggregated error. -/
theorem C8_witness :
    selecionarModeloDisponivel (fun m =>
        if m = "gemini-1.5-pro" then ProbeOutcome.ok
        else ProbeOutcome.err (some 503))
      = Except.ok "gemini-1.5-pro"
    ∧ transcriptionInvocations (fun m =>
        if m = "gemini-1.5-pro" then ProbeOutcome.ok
        else ProbeOutcome.err (some 503))
        [ChunkStep.transcribed "a", ChunkStep.chunkError]
      = some ["gemini-1.5-pro", "gemini-1.5-pro"]
    ∧ selecionarModeloDisponivel (fun _ => ProbeOutcome.err (some 429))
      = Except.error "Nenhum modelo Gemini disponível no momento." := by
  have h1 := (C8_backend_selection (fun m =>
    if m = "gemini-1.5-pro" then ProbeOutcome.ok
    else ProbeOutcome.err (some 503)) [ChunkStep.transcribed "a", ChunkStep.chunkError]).1
  have hfind : List.find? (fun m =>
      decide ((if m = "gemini-1.5-pro" then ProbeOutcome.ok
        else ProbeOutcome.err (some 503)) = ProbeOutcome.ok)) modelosPreferidos
      = some "gemini-1.5-pro" := by decide
  have hsel : selecionarModeloDisponivel (fun m =>
      if m = "gemini-1.5-pro" then ProbeOutcome.ok
      else ProbeOutcome.err (some 503)) = Except.ok "gemini-1.5-pro" := by
    rw [h1, hfind]
  refine ⟨hsel, ?_, ?_⟩
  · have h2 := ((C8_backend_selection (fun m =>
      if m = "gemini-1.5-pro" then ProbeOutcome.ok
      else ProbeOutcome.err (some 503)) [ChunkStep.transcribed "a", ChunkStep.chunkError]).2.2
        "gemini-1.5-pro" hsel).1
    rw [h2]
    decide
  · exact ((C8_backend_selection (fun _ => ProbeOutcome.err (some 429)) []).2.1).mpr
      (by decide)

/-- Helper: a successful case-insensitive prefix match splits the input into
a literal matching the pattern (up to lowercasing) and the remainder. -/
theorem ciPrefixMatch_sound (p : List Char) :
    ∀ s r : List Char, ciPrefixMatch p s = some r →
      ∃ lit, s = lit ++ r ∧ lit.map Char.toLower = p.map Char.toLower := by
  induction p with
  | nil =>
      intro s r h
      simp [ciPrefixMatch] at h
      exact ⟨[], by simp [h], rfl⟩
  | cons pc pr ih =>
      intro s r h
      cases s with
      | nil => simp [ciPrefixMatch] at h
      | cons c cs =>
          rw [ciPrefixMatch] at h
          by_cases hc : c.toLower = pc.toLower
          · rw [if_pos hc] at h
            obtain ⟨lit, h1, h2⟩ := ih cs r h
            exact ⟨c :: lit, by simp [h1], by simp [h2, hc]⟩
          · rw [if_neg hc] at h
            exact absurd h (by simp)

/-- Helper: a successful lazy capture stops at the first `]`, and the capture
contains neither `]` nor a line terminator. -/
theorem scanCapture_sound :
    ∀ s cap rest : List Char, scanCapture s = some (cap, rest) →
      s = cap ++ ']' :: rest ∧ ∀ c ∈ cap, c ≠ ']' ∧ isLineTerm c = false := by
  intro s
  induction s with
  | nil => intro cap rest h; simp [scanCapture] at h
  | cons c cs ih =>
      intro cap rest h
      rw [scanCapture] at h
      by_cases h1 : c = ']'
      · rw [if_pos h1] at h
        simp only [Option.some.injEq, Prod.mk.injEq] at h
        obtain ⟨h2, h3⟩ := h
        subst h2
        subst h3
        exact ⟨by simp [h1], by simp⟩
      · rw [if_neg h1] at h
        by_cases h2 : isLineTerm c = true
        · rw [if_pos h2] at h
          exact absurd h (by simp)
        · rw [if_neg h2] at h
          rcases Option.map_eq_some'.mp h with ⟨⟨cap', rest'⟩, hsc, heq⟩
          obtain ⟨ha, hb⟩ := ih cap' rest' hsc
          simp only [Prod.mk.injEq] at heq
          obtain ⟨hcap, hrest⟩ := heq
          subst hcap
          subst hrest
          refine ⟨by simp [ha], ?_⟩
          intro d hd
          rcases List.mem_cons.mp hd with rfl | hd
          · exact ⟨h1, by simpa using h2⟩
          · exact hb d hd

/-- Helper: a successful anchored match splits the input into a
case-insensitive `GABARITO:[` literal, the capture, the closing `]` and the
remainder. -/
theorem matchGabaritoAt_sound (s cap rest : List Char)
    (h : matchGabaritoAt s = some (cap, rest)) :
    ∃ lit, s = lit ++ cap ++ ']' :: rest
      ∧ lit.map Char.toLower = gabaritoPattern
      ∧ ∀ c ∈ cap, c ≠ ']' ∧ isLineTerm c = false := by
  rw [matchGabaritoAt] at h
  cases hc : ciPrefixMatch gabaritoPattern s with
  | none => rw [hc] at h; exact absurd h (by simp)
  | some r =>
      rw [hc] at h
      obtain ⟨lit, h1, h2⟩ := ciPrefixMatch_sound gabaritoPattern s r hc
      obtain ⟨h3, h4⟩ := scanCapture_sound r cap rest h
      refine ⟨lit, ?_, ?_, h4⟩
      · rw [h1, h3]
        simp
      · rw [h2]
        decide

/-- Helper: the leftmost-match scan reports the match at the earliest
matching position, together with the untouched prefix. -/
theorem findGabarito_sound :
    ∀ s b cap a : List Char, findGabarito s = some (b, cap, a) →
      matchGabaritoAt (s.drop b.length) = some (cap, a)
        ∧ s.take b.length = b
        ∧ ∀ i < b.length, matchGabaritoAt (s.drop i) = none := by
  intro s
  induction s with
  | nil => intro b cap a h; simp [findGabarito] at h
  | cons c cs ih =>
      intro b cap a h
      rw [findGabarito] at h
      cases hm : matchGabaritoAt (c :: cs) with
      | some p =>
          obtain ⟨cap0, a0⟩ := p
          rw [hm] at h
          simp only [Option.some.injEq, Prod.mk.injEq] at h
          obtain ⟨hb, hcap, ha⟩ := h
          subst hb
          subst hcap
          subst ha
          refine ⟨by simpa using hm, rfl, ?_⟩
          intro i hi
          simp at hi
      | none =>
          rw [hm] at h
          rcases Option.map_eq_some'.mp h with ⟨⟨b', cap', a'⟩, hfg, heq⟩
          simp only [Prod.mk.injEq] at heq
          obtain ⟨hb, hcap, ha⟩ := heq
          subst hb
          subst hcap
          subst ha
          obtain ⟨k1, k2, k3⟩ := ih b' cap' a' hfg
          refine ⟨by simpa using k1, by simpa using k2, ?_⟩
          intro i hi
          cases i with
          | zero => simpa using hm
          | succ i =>
              have : i < b'.length := by simpa using hi
              simpa using k3 i this

/-- Helper: when the scan finds no match, no position matches. -/
theorem findGabarito_none :
    ∀ s : List Char, findGabarito s = none →
      ∀ i, matchGabaritoAt (s.drop i) = none := by
  intro s
  induction s with
  | nil =>
      intro _ i
      simp [matchGabaritoAt, ciPrefixMatch, gabaritoPattern]
  | cons c cs ih =>
      intro h i
      rw [findGabarito] at h
      cases hm : matchGabaritoAt (c :: cs) with
      | some p => rw [hm] at h; exact absurd h (by simp)
      | none =>
          rw [hm] at h
          have hfg : findGabarito cs = none := by
            cases hfg : findGabarito cs with
            | none => rfl
            | some q => rw [hfg] at h; exact absurd h (by simp)
          cases i with
          | zero => simpa using hm
          | succ i => simpa using ih hfg i

/-- C10 counterexample: for a provider text whose (first and only)
`GABARITO:[...]` token has empty bracket contents, the handler leaves the
text unchanged — the token is not removed — and returns no answers, whereas
the claim prescribes removing the found token and splitting its contents. -/
theorem C10_counterexample :
    generateActivityExtract "Atividade. GABARITO:[]"
      = ("Atividade. GABARITO:[]", [])
    ∧ findGabarito ("Atividade. GABARITO:[]").toList
      = some ("Atividade. ".toList, [], [])
    ∧ generateActivityExtract "Atividade. GABARITO:[]" ≠ ("Atividade.", [""]) := by
  refine ⟨by decide, by decide, by decide⟩

/-- C10 amended: when the leftmost `GABARITO:[...]` token (case-insensitive,
capture stopping at the first `]`, never crossing a line terminator) has
nonempty contents, the handler returns the text with that one token removed
and trimmed together with the comma-split, trimmed, uppercased contents; when
no token is present — or when the first token's bracket contents are empty,
which the truthiness test treats as no match — the full text is returned
unchanged with an empty answer list. -/
theorem C10_amended (t : String) :
    (findGabarito t.toList = none →
      (∀ i, matchGabaritoAt (t.toList.drop i) = none)
        ∧ generateActivityExtract t = (t, []))
    ∧ (∀ b cap a, findGabarito t.toList = some (b, cap, a) →
        (∃ lit, t.toList = b ++ (lit ++ cap ++ ']' :: a)
            ∧ lit.map Char.toLower = gabaritoPattern
            ∧ ∀ c ∈ cap, c ≠ ']' ∧ isLineTerm c = false)
        ∧ (∀ i < b.length, matchGabaritoAt (t.toList.drop i) = none)
        ∧ (cap = [] → generateActivityExtract t = (t, []))
        ∧ (cap ≠ [] → generateActivityExtract t =
            (jsTrim (String.mk (b ++ a)),
             (jsSplitComma (String.mk cap)).map (fun x => jsToUpperCase (jsTrim x))))) := by
  constructor
  · intro h
    refine ⟨findGabarito_none _ h, ?_⟩
    rw [generateActivityExtract, h]
  · intro b cap a h
    obtain ⟨k1, k2, k3⟩ := findGabarito_sound t.toList b cap a h
    obtain ⟨lit, m1, m2, m3⟩ := matchGabaritoAt_sound _ cap a k1
    refine ⟨⟨lit, ?_, m2, m3⟩, k3, ?_, ?_⟩
    · conv_lhs => rw [← List.take_append_drop b.length t.toList]
      rw [k2, m1]
    · intro hcap
      rw [generateActivityExtract, h]
      simp [hcap]
    · intro hcap
      rw [generateActivityExtract, h]
      simp only [List.isEmpty_eq_true]
      rw [if_neg hcap]

/-- C10 witness: the amended statement evaluated on a concrete provider text
with a lowercase token: the token is removed, the remainder trimmed, and the
contents split, trimmed and uppercased. -/
theorem C10_witness :
    generateActivityExtract "1. Pergunta?\ngabarito:[b, a ,d]"
      = ("1. Pergunta?", ["B", "A", "D"]) := by
  have h := ((C10_amended "1. Pergunta?\ngabarito:[b, a ,d]").2
    ("1. Pergunta?\n".toList) ("b, a ,d".toList) [] (by decide)).2.2.2 (by decide)
  rw [h]
  decide

/-- C5 witness: the amended statement evaluated at a concrete unit list (one
unparsable response followed by a valid one); the placeholder is sized to the
three-question key and processing continues. -/
theorem C5_witness :
    corrigirLoop (gabaritoArray "A,B,C").length (invalidDetails (gabaritoArray "A,B,C"))
        [("a.png", .got .parseError), ("b.png", .got (.obj false none (some [⟨1, true⟩, ⟨2, false⟩, ⟨3, true⟩])))]
      = some
        [{ fileName := "a.png", grade := "0/3",
           details := [⟨1, false⟩, ⟨2, false⟩, ⟨3, false⟩] },
         { fileName := "b.png", grade := "2/3",
           details := [⟨1, true⟩, ⟨2, false⟩, ⟨3, true⟩] }] := by
  have h := C5_amended "a.png" "A,B,C" false none [] AiResponse.parseError
    [("b.png", .got (.obj false none (some [⟨1, true⟩, ⟨2, false⟩, ⟨3, true⟩])))]
  rw [h.2.2.2.2.2.2]
  decide

end VozTranscricao
